import Mathlib

/-!
Verification of the tech-tree ingestion/normalization pipeline and the
interactive view logic of the gaia-tt repository, as a shallow embedding:
the seed-script pipeline (`scripts/add-fossilfuel-data.ts`, shown in
next.config.ts) and the `TechTree` component's view-state handlers.
-/

set_option maxHeartbeats 1000000

namespace SeedScript

/-- The first match of the regular expression applied in `toSingleTrl`
(one or more digits): the first maximal run of consecutive digit
characters, `none` when no digit occurs in the list. -/
def firstDigitRun : List Char → Option (List Char)
  | [] => none
  | c :: rest =>
      if c.isDigit then some (c :: rest.takeWhile (fun d => d.isDigit))
      else firstDigitRun rest

/-- `toSingleTrl` from the seed scripts. The argument models the TS value
`string | number | null | undefined`: `none` is a nullish value, `some s`
a string or number whose textual form (what `String(value)` yields) is
`s`. The TS default parameter `defaultValue = "1"` is passed explicitly
by every caller here. -/
def toSingleTrl (value : Option String) (defaultValue : String) : String :=
  match value with
  | none => defaultValue
  | some s =>
      match firstDigitRun s.data with
      | some run => String.mk run
      | none => defaultValue

/-- A raw node record of the seed script. The open-ended extra attributes
of the TS interface play no role in any checked property and are omitted.
For the two TRL fields the outer `Option` models presence of the key on
the record (the TS `"trl_projected_5_10_years" in node` test) and the
inner `Option` models a `null` value; `some (some s)` is a string or
number value of textual form `s`. -/
structure RawNode where
  id : String
  label : String
  category : String
  trl_current : Option (Option String)
  trl_projected_5_10_years : Option (Option String)
  references : Option (List String)
  deriving DecidableEq, Repr

/-- The value `toSingleTrl` receives for a TRL field: an absent key and a
`null` value are both nullish in TS. -/
def nullishJoin (field : Option (Option String)) : Option String :=
  match field with
  | none => none
  | some v => v

/-- The per-node body of `normalizeNodes`: `trl_current` is always set from
`toSingleTrl`; `trl_projected_5_10_years` is normalised only when the key
already exists on the record. -/
def normalizeNode (node : RawNode) : RawNode :=
  { node with
    trl_current := some (some (toSingleTrl (nullishJoin node.trl_current) "1")),
    trl_projected_5_10_years :=
      match node.trl_projected_5_10_years with
      | none => none
      | some v => some (some (toSingleTrl v "1")) }

/-- `normalizeNodes` from the seed scripts. The `badNodes` pass over
unexpected projected-TRL keys only writes a console warning and does not
change the returned array. -/
def normalizeNodes (nodes : List RawNode) : List RawNode :=
  nodes.map normalizeNode

/-- A raw relation record: the single-target form has a `target` key, the
multi-target form a `targets` key. `source : Option String` models a
possibly absent source field. -/
inductive RawEdge where
  | single (source : Option String) (target : String)
  | multi (source : Option String) (targets : List String)
  deriving DecidableEq, Repr

/-- The `source` field of either record form. -/
def RawEdge.sourceOf : RawEdge → Option String
  | .single s _ => s
  | .multi s _ => s

/-- JS truthiness of the source field: the guard in the emission loop
skips `undefined`, `null` and the empty string. `truthyString` returns
the source exactly when the guard passes. -/
def truthyString : Option String → Option String
  | none => none
  | some s => if s = "" then none else some s

structure NormalizedEdge where
  id : String
  source : String
  target : String
  deriving DecidableEq, Repr

/-- The edge identifier template of `normalizeTechTreeEdges`. -/
def mkEdgeId (sourceId targetId : String) : String :=
  "edge_src_" ++ sourceId ++ "_tgt_" ++ targetId

/-- The pre-calculated expected count of `normalizeTechTreeEdges`: 1 per
single-target record, `targets.length` per multi-target record. This pass
never looks at the `source` field. -/
def expectedEdgeCount : List RawEdge → Nat
  | [] => 0
  | RawEdge.single _ _ :: rest => 1 + expectedEdgeCount rest
  | RawEdge.multi _ targets :: rest => targets.length + expectedEdgeCount rest

/-- The edge-emission loop of `normalizeTechTreeEdges`: a record whose
source fails the truthiness guard is skipped entirely; a single-target
record emits one edge; a multi-target record fans out into one edge per
listed target. -/
def buildNormalizedEdges : List RawEdge → List NormalizedEdge
  | [] => []
  | RawEdge.single src target :: rest =>
      match truthyString src with
      | none => buildNormalizedEdges rest
      | some sourceId =>
          { id := mkEdgeId sourceId target, source := sourceId, target := target } ::
            buildNormalizedEdges rest
  | RawEdge.multi src targets :: rest =>
      match truthyString src with
      | none => buildNormalizedEdges rest
      | some sourceId =>
          targets.map (fun targetId =>
            { id := mkEdgeId sourceId targetId, source := sourceId,
              target := targetId }) ++ buildNormalizedEdges rest

/-- `normalizeTechTreeEdges`: the normalised edge list together with the
pre-calculated expected count (the node list of the graph passes through
unchanged and is threaded separately by `main`). -/
def normalizeTechTreeEdges (edges : List RawEdge) : List NormalizedEdge × Nat :=
  (buildNormalizedEdges edges, expectedEdgeCount edges)

/-- The predicate of `runReferenceSanityCheck`: a nullish `references`
field or an empty reference array. -/
def missingReferences (n : RawNode) : Bool :=
  match n.references with
  | none => true
  | some rs => rs.isEmpty

/-- `runEdgeSanityCheck`: throws when the actual edge count differs from
the expected one. -/
def runEdgeSanityCheck (actualCount expectedCount : Nat) : Except String Unit :=
  if actualCount ≠ expectedCount then Except.error "Edge sanity check FAILED"
  else Except.ok ()

/-- `runReferenceSanityCheck`: throws, naming the offending node ids, when
any node has a nullish or empty reference list. -/
def runReferenceSanityCheck (nodes : List RawNode) : Except String Unit :=
  let missing := (nodes.filter missingReferences).map (fun n => n.id)
  if missing.length > 0 then
    Except.error ("Reference sanity check FAILED. Nodes missing references: " ++
      String.intercalate ", " missing)
  else Except.ok ()

/-- `runIdConsistencyCheck` computes two advisory sets (edge endpoints
with no matching node, and isolated nodes) and only logs them; it never
throws. -/
def runIdConsistencyCheck (nodes : List RawNode) (edges : List NormalizedEdge) :
    Finset String × Finset String :=
  let nodeIds : Finset String := nodes.foldl (fun acc n => insert n.id acc) ∅
  let endpointIds : Finset String :=
    edges.foldl (fun acc e => insert e.target (insert e.source acc)) ∅
  (endpointIds.filter (fun i => i ∉ nodeIds), nodeIds.filter (fun i => i ∉ endpointIds))

structure TechTreeGraph where
  nodes : List RawNode
  edges : List RawEdge
  deriving DecidableEq, Repr

structure TechTreeData where
  graph : TechTreeGraph
  deriving DecidableEq, Repr

/-- The outcome of one seeding run: either an abort (a sanity check threw
before the MongoDB connection was opened, so the store saw zero writes) or
a seed of exactly the normalized node and edge documents. -/
inductive IngestionResult where
  | aborted (message : String)
  | seeded (nodes : List RawNode) (edges : List NormalizedEdge)
  deriving DecidableEq, Repr

/-- `main` of the fossil-fuel seed script up to the store mutation:
normalize nodes, normalize edges, then run the three sanity checks in
order. A thrown check error aborts before any store write; when every
fatal check passes, the normalized nodes and edges are the documents
inserted. The id-consistency check is computed but its advisory findings
are only logged. -/
def main (techTree : TechTreeData) : IngestionResult :=
  let finalNodes := normalizeNodes techTree.graph.nodes
  let result := normalizeTechTreeEdges techTree.graph.edges
  let finalEdges := result.1
  let expectedCount := result.2
  match runEdgeSanityCheck finalEdges.length expectedCount with
  | Except.error m => IngestionResult.aborted m
  | Except.ok _ =>
      match runReferenceSanityCheck finalNodes with
      | Except.error m => IngestionResult.aborted m
      | Except.ok _ =>
          let _advisory := runIdConsistencyCheck finalNodes finalEdges
          IngestionResult.seeded finalNodes finalEdges

end SeedScript

namespace TechTreeView

/-- Modelled from the spec: the enumerated grouping mode (`None` or
`Category`); the `lib/types` module is not among the repository files.
The component stores the mode opaquely, so every checked property is
parametric in it. -/
inductive GroupingMode where
  | None
  | Category
  deriving DecidableEq, Repr

/-- Modelled from the spec: the data record of a rendered node; the
component reads only `data.category`, which may be absent. -/
structure UiNodeData where
  category : Option String
  deriving DecidableEq, Repr

/-- A rendered node as the `TechTree` component reads it: an identifier
plus its data record. -/
structure UiNode where
  id : String
  data : UiNodeData
  deriving DecidableEq, Repr

/-- A rendered edge as the component reads it: identifier and endpoints. -/
structure Edge where
  id : String
  source : String
  target : String
  deriving DecidableEq, Repr

structure TechTree where
  nodes : List UiNode
  edges : List Edge
  deriving DecidableEq, Repr

structure HighlightedElements where
  nodeIds : Finset String
  edgeIds : Finset String
  deriving DecidableEq

/-- The category filter inside `loadLayout`: for a selected category other
than "All", keep the nodes whose `data.category` equals the selected
category and the edges for which a node of the tree with that category
exists at the source and at the target. -/
def applyCategoryFilter (techTree : TechTree) (selectedCategory : String) : TechTree :=
  if selectedCategory = "All" then techTree
  else
    { nodes := techTree.nodes.filter
        (fun node => node.data.category == some selectedCategory),
      edges := techTree.edges.filter (fun edge =>
        (techTree.nodes.any (fun n =>
          n.id == edge.source && n.data.category == some selectedCategory)) &&
        (techTree.nodes.any (fun n =>
          n.id == edge.target && n.data.category == some selectedCategory))) }

/-- One iteration of the `allEdges.forEach` loop of
`findConnectedElements`: an edge touching the anchor contributes its id,
and its far endpoint(s) for whichever of the two directions applies. -/
def connectStep (nodeId : String) (acc : Finset String × Finset String)
    (edge : Edge) : Finset String × Finset String :=
  if edge.source = nodeId ∨ edge.target = nodeId then
    let withEdge : Finset String × Finset String := (acc.1, insert edge.id acc.2)
    let withTarget : Finset String × Finset String :=
      if edge.source = nodeId then (insert edge.target withEdge.1, withEdge.2)
      else withEdge
    if edge.target = nodeId then (insert edge.source withTarget.1, withTarget.2)
    else withTarget
  else acc

/-- `findConnectedElements`: starting from the singleton anchor set, one
pass over the edge list collects the connected node ids and edge ids. -/
def findConnectedElements (nodeId : String) (allEdges : List Edge) :
    Finset String × Finset String :=
  allEdges.foldl (connectStep nodeId) ({nodeId}, ∅)

/-- The transient view state of the `TechTree` component: every `useState`
cell the checked handlers read or write. -/
structure ViewState where
  nodes : List UiNode
  edges : List Edge
  selectedNode : Option UiNode
  highlightedElements : HighlightedElements
  groupingMode : GroupingMode
  showingRelatedNodes : Option String
  showOnlyConnected : Bool
  searchInput : String
  searchTerm : String
  selectedCategory : String
  isPanelExpanded : Bool
  deriving DecidableEq

/-- `handleShowDetails`: when a node with the given id is among the
rendered nodes, select it and recompute the highlight sets from its
connected elements; on a narrow viewport also expand the panel. No other
state cell is written. -/
def handleShowDetails (innerWidth : Nat) (nodeId : String) (s : ViewState) : ViewState :=
  match s.nodes.find? (fun n => n.id == nodeId) with
  | none => s
  | some node =>
      let connected := findConnectedElements nodeId s.edges
      let s1 := { s with
        selectedNode := some node,
        highlightedElements := { nodeIds := connected.1, edgeIds := connected.2 } }
      if innerWidth < 768 then { s1 with isPanelExpanded := true } else s1

/-- `handleShowConnected`: when the node is found, select it, switch on the
connected-only filter anchored at it, clear the search input and term, and
empty the highlight sets. -/
def handleShowConnected (nodeId : String) (s : ViewState) : ViewState :=
  match s.nodes.find? (fun n => n.id == nodeId) with
  | none => s
  | some node =>
      { s with
        selectedNode := some node,
        showingRelatedNodes := some nodeId,
        showOnlyConnected := true,
        searchInput := "",
        searchTerm := "",
        highlightedElements := { nodeIds := ∅, edgeIds := ∅ } }

/-- `handleGroupingModeChange`: set the new mode and clear selection, the
connected-only flag and anchor, and the highlight sets. -/
def handleGroupingModeChange (mode : GroupingMode) (s : ViewState) : ViewState :=
  { s with
    groupingMode := mode,
    selectedNode := Option.none,
    showingRelatedNodes := Option.none,
    showOnlyConnected := false,
    highlightedElements := { nodeIds := ∅, edgeIds := ∅ } }

/-- `handleReset`: clear selection, the connected-only flag and anchor,
both search cells, the category filter (back to "All") and the highlight
sets. -/
def handleReset (s : ViewState) : ViewState :=
  { s with
    selectedNode := Option.none,
    showingRelatedNodes := Option.none,
    showOnlyConnected := false,
    searchInput := "",
    searchTerm := "",
    selectedCategory := "All",
    highlightedElements := { nodeIds := ∅, edgeIds := ∅ } }

/-- `handleSearchChange`: store the new input and clear selection, the
connected-only flag and anchor, and the highlight sets. The search term
itself is only synchronised later by an effect (`syncSearchTerm`). -/
def handleSearchChange (value : String) (s : ViewState) : ViewState :=
  { s with
    searchInput := value,
    selectedNode := Option.none,
    showingRelatedNodes := Option.none,
    showOnlyConnected := false,
    highlightedElements := { nodeIds := ∅, edgeIds := ∅ } }

/-- The effect that copies `searchInput` into `searchTerm`. -/
def syncSearchTerm (s : ViewState) : ViewState :=
  { s with searchTerm := s.searchInput }

/-- A concrete rendered node used to exercise `handleShowDetails`. -/
def detailsNode : UiNode :=
  { id := "A", data := { category := Option.none } }

/-- A concrete view state with a non-empty search term, used to exercise
`handleShowDetails`. -/
def detailsViewState : ViewState :=
  { nodes := [detailsNode],
    edges := [],
    selectedNode := Option.none,
    highlightedElements := { nodeIds := ∅, edgeIds := ∅ },
    groupingMode := GroupingMode.None,
    showingRelatedNodes := Option.none,
    showOnlyConnected := false,
    searchInput := "x",
    searchTerm := "x",
    selectedCategory := "All",
    isPanelExpanded := true }

end TechTreeView

namespace SeedScript

theorem firstDigitRun_of_no_digit (l : List Char) (h : ∀ c ∈ l, c.isDigit = false) :
    firstDigitRun l = Option.none := by
  induction l with
  | nil => rfl
  | cons c rest ih =>
      have hc : c.isDigit = false := h c (List.mem_cons_self c rest)
      rw [firstDigitRun, hc]
      simp only [Bool.false_eq_true, if_false]
      exact ih (fun d hd => h d (List.mem_cons_of_mem c hd))

theorem takeWhile_digits_append (run post : List Char)
    (hrun : ∀ c ∈ run, c.isDigit = true)
    (hpost : ∀ c ∈ post.head?, c.isDigit = false) :
    (run ++ post).takeWhile (fun d => d.isDigit) = run := by
  induction run with
  | nil =>
      cases post with
      | nil => rfl
      | cons p ps =>
          have hp : p.isDigit = false := hpost p (by simp)
          simp [List.takeWhile_cons, hp]
  | cons c rest ih =>
      have hc : c.isDigit = true := hrun c (List.mem_cons_self c rest)
      simp only [List.cons_append, List.takeWhile_cons, hc, if_true]
      rw [ih (fun d hd => hrun d (List.mem_cons_of_mem c hd))]

theorem firstDigitRun_decomp (pre run post : List Char)
    (hpre : ∀ c ∈ pre, c.isDigit = false) (hne : run ≠ [])
    (hrun : ∀ c ∈ run, c.isDigit = true)
    (hpost : ∀ c ∈ post.head?, c.isDigit = false) :
    firstDigitRun (pre ++ run ++ post) = some run := by
  induction pre with
  | nil =>
      cases run with
      | nil => exact absurd rfl hne
      | cons c rest =>
          have hc : c.isDigit = true := hrun c (List.mem_cons_self c rest)
          simp only [List.nil_append, List.cons_append, firstDigitRun, hc, if_true,
            List.append_eq]
          rw [takeWhile_digits_append rest post
            (fun d hd => hrun d (List.mem_cons_of_mem c hd)) hpost]
  | cons p pre1 ih =>
      have hp : p.isDigit = false := hpre p (List.mem_cons_self p pre1)
      simp only [List.cons_append, firstDigitRun, hp, Bool.false_eq_true, if_false]
      exact ih (fun d hd => hpre d (List.mem_cons_of_mem p hd))

/-- C2: for a nullish raw maturity value, or one whose textual form
contains no digit at all, `toSingleTrl` returns the default "1"; when the
textual form decomposes into a digit-free prefix, a non-empty maximal run
of digits and a remainder that does not start with a digit, it returns
exactly that first digit run as a string. -/
theorem toSingleTrl_first_digit_run (value : Option String) :
    (value = Option.none → toSingleTrl value "1" = "1") ∧
    (∀ s, value = some s → (∀ c ∈ s.data, c.isDigit = false) →
      toSingleTrl value "1" = "1") ∧
    (∀ s pre run post, value = some s → s.data = pre ++ run ++ post →
      (∀ c ∈ pre, c.isDigit = false) → run ≠ [] →
      (∀ c ∈ run, c.isDigit = true) → (∀ c ∈ post.head?, c.isDigit = false) →
      toSingleTrl value "1" = String.mk run) := by
  refine ⟨?_, ?_, ?_⟩
  · rintro rfl; rfl
  · rintro s rfl h
    simp [toSingleTrl, firstDigitRun_of_no_digit s.data h]
  · rintro s pre run post rfl hdecomp hpre hne hrun hpost
    have hfd : firstDigitRun s.data = some run := by
      rw [hdecomp]
      exact firstDigitRun_decomp pre run post hpre hne hrun hpost
    simp [toSingleTrl, hfd]

/-- C1 counterexample: a single-target record with an absent source is
counted by the expected-count pass (which never inspects the source) but
skipped entirely by the emission loop, so the expected count exceeds the
number of edges actually emitted. -/
theorem normalizeTechTreeEdges_count_counterexample :
    (normalizeTechTreeEdges [RawEdge.single Option.none "t"]).1.length ≠
      (normalizeTechTreeEdges [RawEdge.single Option.none "t"]).2 := by
  decide

/-- C1 (amended): when every record's source is present and truthy, the
expected count returned by edge normalization equals the number of edges
actually emitted; a record with an absent source contributes to the
expected count but emits nothing, breaking the equality. -/
theorem normalizeTechTreeEdges_count_of_truthy (records : List RawEdge)
    (h : records.all (fun e => (truthyString e.sourceOf).isSome) = true) :
    (normalizeTechTreeEdges records).1.length =
      (normalizeTechTreeEdges records).2 := by
  simp only [normalizeTechTreeEdges]
  induction records with
  | nil => rfl
  | cons e rest ih =>
      rw [List.all_cons, Bool.and_eq_true] at h
      obtain ⟨he, hrest⟩ := h
      cases e with
      | single src target =>
          simp only [RawEdge.sourceOf] at he
          obtain ⟨s, hs⟩ := Option.isSome_iff_exists.mp he
          simp only [buildNormalizedEdges, expectedEdgeCount, hs,
            List.length_cons, ih hrest]
          omega
      | multi src targets =>
          simp only [RawEdge.sourceOf] at he
          obtain ⟨s, hs⟩ := Option.isSome_iff_exists.mp he
          simp only [buildNormalizedEdges, expectedEdgeCount, hs,
            List.length_append, List.length_map, ih hrest]

/-- C1 witness: a record set whose sources are all present, with one
single-target and one two-target record: the expected count 3 equals the
emitted count. -/
theorem normalizeTechTreeEdges_count_witness :
    ([RawEdge.single (some "a") "b",
        RawEdge.multi (some "c") ["d", "e"]].all
      (fun e => (truthyString e.sourceOf).isSome) = true) ∧
    (normalizeTechTreeEdges [RawEdge.single (some "a") "b",
        RawEdge.multi (some "c") ["d", "e"]]).1.length =
      (normalizeTechTreeEdges [RawEdge.single (some "a") "b",
        RawEdge.multi (some "c") ["d", "e"]]).2 :=
  ⟨by decide, normalizeTechTreeEdges_count_of_truthy _ (by decide)⟩

/-- C4: node normalization relates input and output lists pointwise: the
current-maturity field is always set from the scalar normalizer, while the
projected-maturity field is normalised exactly when its key is present on
the record and its absence is preserved, never defaulted. -/
theorem normalizeNodes_trl_fields (nodes : List RawNode) :
    List.Forall₂ (fun node updated =>
      updated.trl_current =
        some (some (toSingleTrl (nullishJoin node.trl_current) "1")) ∧
      (node.trl_projected_5_10_years = Option.none →
        updated.trl_projected_5_10_years = Option.none) ∧
      (∀ v, node.trl_projected_5_10_years = some v →
        updated.trl_projected_5_10_years = some (some (toSingleTrl v "1"))))
      nodes (normalizeNodes nodes) := by
  induction nodes with
  | nil => exact List.Forall₂.nil
  | cons n rest ih =>
      simp only [normalizeNodes, List.map_cons] at ih ⊢
      refine List.Forall₂.cons ⟨rfl, ?_, ?_⟩ ih
      · intro h; simp [normalizeNode, h]
      · intro v h; simp [normalizeNode, h]

theorem runEdgeSanityCheck_ok_iff (actualCount expectedCount : Nat) :
    runEdgeSanityCheck actualCount expectedCount = Except.ok () ↔
      actualCount = expectedCount := by
  unfold runEdgeSanityCheck
  by_cases h : actualCount = expectedCount <;> simp [h]

theorem all_not_missing_iff_filter_nil (nodes : List RawNode) :
    nodes.all (fun n => !(missingReferences n)) = true ↔
      nodes.filter missingReferences = [] := by
  rw [List.all_eq_true, List.filter_eq_nil_iff]
  constructor
  · intro h n hn
    have hb := h n hn
    simp only [Bool.not_eq_true'] at hb
    simp [hb]
  · intro h n hn
    have hb := h n hn
    simp only [Bool.not_eq_true] at hb
    simp [hb]

theorem runReferenceSanityCheck_ok_iff (nodes : List RawNode) :
    runReferenceSanityCheck nodes = Except.ok () ↔
      nodes.all (fun n => !(missingReferences n)) = true := by
  rw [all_not_missing_iff_filter_nil]
  unfold runReferenceSanityCheck
  by_cases h : nodes.filter missingReferences = []
  · simp [h]
  · have hlen : 0 < ((nodes.filter missingReferences).map (fun n => n.id)).length := by
      rw [List.length_map]
      exact List.length_pos.mpr h
    simp [hlen, h]

/-- C3: the seeding run performs its store writes iff both fatal checks
pass — the emitted edge count equals the expected count, and no
normalized node has a nullish or empty reference list; when either fatal
condition fails the run aborts having performed zero writes. The advisory
id-consistency findings (dangling endpoints, isolated nodes) are only
logged and never appear in the condition. -/
theorem main_seeds_iff_no_fatal_finding (techTree : TechTreeData) :
    (main techTree =
        IngestionResult.seeded (normalizeNodes techTree.graph.nodes)
          (normalizeTechTreeEdges techTree.graph.edges).1 ↔
      ((normalizeTechTreeEdges techTree.graph.edges).1.length =
          (normalizeTechTreeEdges techTree.graph.edges).2 ∧
        (normalizeNodes techTree.graph.nodes).all
          (fun n => !(missingReferences n)) = true)) ∧
    (∀ message, main techTree = IngestionResult.aborted message →
      ¬ ((normalizeTechTreeEdges techTree.graph.edges).1.length =
          (normalizeTechTreeEdges techTree.graph.edges).2 ∧
        (normalizeNodes techTree.graph.nodes).all
          (fun n => !(missingReferences n)) = true)) := by
  by_cases h1 : (normalizeTechTreeEdges techTree.graph.edges).1.length =
      (normalizeTechTreeEdges techTree.graph.edges).2
  · have hok1 : runEdgeSanityCheck
        (normalizeTechTreeEdges techTree.graph.edges).1.length
        (normalizeTechTreeEdges techTree.graph.edges).2 = Except.ok () :=
      (runEdgeSanityCheck_ok_iff _ _).mpr h1
    by_cases h2 : (normalizeNodes techTree.graph.nodes).all
        (fun n => !(missingReferences n)) = true
    · have hok2 : runReferenceSanityCheck (normalizeNodes techTree.graph.nodes) =
          Except.ok () := (runReferenceSanityCheck_ok_iff _).mpr h2
      have hm : main techTree =
          IngestionResult.seeded (normalizeNodes techTree.graph.nodes)
            (normalizeTechTreeEdges techTree.graph.edges).1 := by
        simp only [main]
        rw [hok1, hok2]
      refine ⟨?_, ?_⟩
      · rw [hm]
        simp [h1, h2]
      · intro message hab
        rw [hm] at hab
        exact IngestionResult.noConfusion hab
    · cases hrc : runReferenceSanityCheck (normalizeNodes techTree.graph.nodes) with
      | ok u =>
          cases u
          exact absurd ((runReferenceSanityCheck_ok_iff _).mp hrc) h2
      | error m =>
          have hm : main techTree = IngestionResult.aborted m := by
            simp only [main]
            rw [hok1, hrc]
          refine ⟨?_, ?_⟩
          · rw [hm]
            constructor
            · intro hcontra
              exact IngestionResult.noConfusion hcontra
            · rintro ⟨_, hc2⟩
              exact absurd hc2 h2
          · rintro message hab ⟨_, hc2⟩
            exact absurd hc2 h2
  · cases hec : runEdgeSanityCheck
        (normalizeTechTreeEdges techTree.graph.edges).1.length
        (normalizeTechTreeEdges techTree.graph.edges).2 with
    | ok u =>
        cases u
        exact absurd ((runEdgeSanityCheck_ok_iff _ _).mp hec) h1
    | error m =>
        have hm : main techTree = IngestionResult.aborted m := by
          simp only [main]
          rw [hec]
        refine ⟨?_, ?_⟩
        · rw [hm]
          constructor
          · intro hcontra
            exact IngestionResult.noConfusion hcontra
          · rintro ⟨hc1, _⟩
            exact absurd hc1 h1
        · rintro message hab ⟨hc1, _⟩
          exact absurd hc1 h1

/-- C5 counterexample: two identical single-target records are emitted as
two edges with the same identifier and the same ordered (source, target)
pair — parallel edges are not deduplicated. -/
theorem normalizeTechTreeEdges_duplicate_counterexample :
    (normalizeTechTreeEdges [RawEdge.single (some "a") "b",
        RawEdge.single (some "a") "b"]).1 =
      [{ id := "edge_src_a_tgt_b", source := "a", target := "b" },
       { id := "edge_src_a_tgt_b", source := "a", target := "b" }] ∧
    ¬ List.Pairwise (fun e1 e2 => e1.id ≠ e2.id)
        (normalizeTechTreeEdges [RawEdge.single (some "a") "b",
          RawEdge.single (some "a") "b"]).1 ∧
    ¬ List.Pairwise (fun e1 e2 => e1.source ≠ e2.source ∨ e1.target ≠ e2.target)
        (normalizeTechTreeEdges [RawEdge.single (some "a") "b",
          RawEdge.single (some "a") "b"]).1 :=
  ⟨by decide, by decide, by decide⟩

/-- C5 (amended): every emitted edge's identifier is the fixed
deterministic function of its ordered (source, target) pair, so two
emitted edges with the same pair always carry the same identifier; the
normalizer does not deduplicate, so duplicated pairs (and therefore
duplicated identifiers) can appear in the output. -/
theorem normalizeTechTreeEdges_id_of_pair (records : List RawEdge) :
    (∀ e ∈ (normalizeTechTreeEdges records).1,
      e.id = mkEdgeId e.source e.target) ∧
    (∀ e1 ∈ (normalizeTechTreeEdges records).1,
      ∀ e2 ∈ (normalizeTechTreeEdges records).1,
        e1.source = e2.source → e1.target = e2.target → e1.id = e2.id) := by
  have base : ∀ e ∈ buildNormalizedEdges records, e.id = mkEdgeId e.source e.target := by
    induction records with
    | nil =>
        intro e he
        simp [buildNormalizedEdges] at he
    | cons r rest ih =>
        intro e he
        cases r with
        | single src target =>
            cases htr : truthyString src with
            | none =>
                simp only [buildNormalizedEdges, htr] at he
                exact ih e he
            | some sourceId =>
                simp only [buildNormalizedEdges, htr] at he
                rcases List.mem_cons.mp he with rfl | hmem
                · rfl
                · exact ih e hmem
        | multi src targets =>
            cases htr : truthyString src with
            | none =>
                simp only [buildNormalizedEdges, htr] at he
                exact ih e he
            | some sourceId =>
                simp only [buildNormalizedEdges, htr] at he
                rcases List.mem_append.mp he with hmap | hmem
                · rcases List.mem_map.mp hmap with ⟨t, ht, rfl⟩
                  rfl
                · exact ih e hmem
  refine ⟨fun e he => base e he, ?_⟩
  intro e1 h1 e2 h2 hs ht
  rw [base e1 h1, base e2 h2, hs, ht]

end SeedScript

namespace TechTreeView

theorem connectStep_fst_mem (nodeId x : String)
    (acc : Finset String × Finset String) (edge : Edge) :
    x ∈ (connectStep nodeId acc edge).1 ↔
      x ∈ acc.1 ∨ (edge.source = nodeId ∧ x = edge.target) ∨
        (edge.target = nodeId ∧ x = edge.source) := by
  unfold connectStep
  by_cases h1 : edge.source = nodeId <;> by_cases h2 : edge.target = nodeId <;>
    simp [h1, h2, Finset.mem_insert] <;> tauto

theorem connectStep_snd_mem (nodeId i : String)
    (acc : Finset String × Finset String) (edge : Edge) :
    i ∈ (connectStep nodeId acc edge).2 ↔
      i ∈ acc.2 ∨ ((edge.source = nodeId ∨ edge.target = nodeId) ∧ i = edge.id) := by
  unfold connectStep
  by_cases h1 : edge.source = nodeId <;> by_cases h2 : edge.target = nodeId <;>
    simp [h1, h2, Finset.mem_insert] <;> tauto

theorem foldl_connectStep_fst_mem (nodeId : String) (edges : List Edge)
    (acc : Finset String × Finset String) (x : String) :
    x ∈ (edges.foldl (connectStep nodeId) acc).1 ↔
      x ∈ acc.1 ∨ ∃ e ∈ edges, (e.source = nodeId ∧ x = e.target) ∨
        (e.target = nodeId ∧ x = e.source) := by
  induction edges generalizing acc with
  | nil => simp
  | cons e rest ih =>
      rw [List.foldl_cons, ih, connectStep_fst_mem]
      constructor
      · rintro ((hacc | hce) | ⟨f, hf, hcf⟩)
        · exact Or.inl hacc
        · exact Or.inr ⟨e, List.mem_cons_self e rest, hce⟩
        · exact Or.inr ⟨f, List.mem_cons_of_mem e hf, hcf⟩
      · rintro (hacc | ⟨f, hf, hcf⟩)
        · exact Or.inl (Or.inl hacc)
        · rcases List.mem_cons.mp hf with rfl | hf2
          · exact Or.inl (Or.inr hcf)
          · exact Or.inr ⟨f, hf2, hcf⟩

theorem foldl_connectStep_snd_mem (nodeId : String) (edges : List Edge)
    (acc : Finset String × Finset String) (i : String) :
    i ∈ (edges.foldl (connectStep nodeId) acc).2 ↔
      i ∈ acc.2 ∨ ∃ e ∈ edges, (e.source = nodeId ∨ e.target = nodeId) ∧ i = e.id := by
  induction edges generalizing acc with
  | nil => simp
  | cons e rest ih =>
      rw [List.foldl_cons, ih, connectStep_snd_mem]
      constructor
      · rintro ((hacc | hce) | ⟨f, hf, hcf⟩)
        · exact Or.inl hacc
        · exact Or.inr ⟨e, List.mem_cons_self e rest, hce⟩
        · exact Or.inr ⟨f, List.mem_cons_of_mem e hf, hcf⟩
      · rintro (hacc | ⟨f, hf, hcf⟩)
        · exact Or.inl (Or.inl hacc)
        · rcases List.mem_cons.mp hf with rfl | hf2
          · exact Or.inl (Or.inr hcf)
          · exact Or.inr ⟨f, hf2, hcf⟩

/-- C7: connected-neighborhood expansion returns exactly the anchor plus
the nodes directly adjacent to it through any edge in either direction,
and exactly the edges having the anchor as source or target; it is a
single one-hop pass, and an anchor touched by no edge yields just the
anchor and no edges. -/
theorem findConnectedElements_one_hop (nodeId : String) (allEdges : List Edge) :
    (∀ x, x ∈ (findConnectedElements nodeId allEdges).1 ↔
      x = nodeId ∨ ∃ e ∈ allEdges, (e.source = nodeId ∧ x = e.target) ∨
        (e.target = nodeId ∧ x = e.source)) ∧
    (∀ i, i ∈ (findConnectedElements nodeId allEdges).2 ↔
      ∃ e ∈ allEdges, (e.source = nodeId ∨ e.target = nodeId) ∧ i = e.id) ∧
    ((allEdges.all fun e => !(e.source == nodeId) && !(e.target == nodeId)) = true →
      (findConnectedElements nodeId allEdges).1 = {nodeId} ∧
      (findConnectedElements nodeId allEdges).2 = ∅) := by
  have hne : ∀ h : (allEdges.all fun e =>
        !(e.source == nodeId) && !(e.target == nodeId)) = true,
      ∀ e ∈ allEdges, e.source ≠ nodeId ∧ e.target ≠ nodeId := by
    intro h e he
    have hb := (List.all_eq_true.mp h) e he
    simp only [Bool.and_eq_true, Bool.not_eq_true', beq_eq_false_iff_ne] at hb
    exact hb
  refine ⟨?_, ?_, ?_⟩
  · intro x
    rw [findConnectedElements, foldl_connectStep_fst_mem]
    simp [Finset.mem_singleton]
  · intro i
    rw [findConnectedElements, foldl_connectStep_snd_mem]
    simp
  · intro hall
    constructor
    · ext x
      rw [findConnectedElements, foldl_connectStep_fst_mem]
      simp only [Finset.mem_singleton]
      constructor
      · rintro (hx | ⟨e, he, hc⟩)
        · exact hx
        · rcases hc with ⟨hs, _⟩ | ⟨ht, _⟩
          · exact absurd hs (hne hall e he).1
          · exact absurd ht (hne hall e he).2
      · intro hx
        exact Or.inl hx
    · ext i
      rw [findConnectedElements, foldl_connectStep_snd_mem]
      simp only [Finset.not_mem_empty, iff_false]
      rintro (hacc | ⟨e, he, hs | ht, _⟩)
      · exact hacc
      · exact (hne hall e he).1 hs
      · exact (hne hall e he).2 ht

/-- C6: for a selected category other than "All", the category filter
keeps exactly the nodes whose category equals the selected value, and
exactly the edges whose source and target both resolve to nodes of the
filtered node set; an edge with one endpoint outside the category is
dropped. -/
theorem applyCategoryFilter_induced_subgraph (techTree : TechTree)
    (selectedCategory : String) (h : selectedCategory ≠ "All") :
    (∀ n, n ∈ (applyCategoryFilter techTree selectedCategory).nodes ↔
      n ∈ techTree.nodes ∧ n.data.category = some selectedCategory) ∧
    (∀ e, e ∈ (applyCategoryFilter techTree selectedCategory).edges ↔
      e ∈ techTree.edges ∧
      (∃ n ∈ (applyCategoryFilter techTree selectedCategory).nodes,
        n.id = e.source) ∧
      (∃ n ∈ (applyCategoryFilter techTree selectedCategory).nodes,
        n.id = e.target)) := by
  have hnodes : ∀ n, n ∈ (applyCategoryFilter techTree selectedCategory).nodes ↔
      n ∈ techTree.nodes ∧ n.data.category = some selectedCategory := by
    intro n
    simp [applyCategoryFilter, if_neg h, List.mem_filter]
  refine ⟨hnodes, ?_⟩
  intro e
  simp only [applyCategoryFilter, if_neg h, List.mem_filter, Bool.and_eq_true,
    List.any_eq_true, beq_iff_eq]
  tauto

/-- C6 witness: the example of the spec — nodes A and B in cat1, C in
cat2, and the cross-category edge A→C; filtering to cat1 keeps exactly A
and B and zero edges. -/
theorem applyCategoryFilter_witness :
    ("cat1" : String) ≠ "All" ∧
    (applyCategoryFilter
      { nodes := [{ id := "A", data := { category := some "cat1" } },
                  { id := "B", data := { category := some "cat1" } },
                  { id := "C", data := { category := some "cat2" } }],
        edges := [{ id := "eAC", source := "A", target := "C" }] }
      "cat1").nodes =
      [{ id := "A", data := { category := some "cat1" } },
       { id := "B", data := { category := some "cat1" } }] ∧
    (applyCategoryFilter
      { nodes := [{ id := "A", data := { category := some "cat1" } },
                  { id := "B", data := { category := some "cat1" } },
                  { id := "C", data := { category := some "cat2" } }],
        edges := [{ id := "eAC", source := "A", target := "C" }] }
      "cat1").edges = [] := by
  have _hspec := applyCategoryFilter_induced_subgraph
    { nodes := [{ id := "A", data := { category := some "cat1" } },
                { id := "B", data := { category := some "cat1" } },
                { id := "C", data := { category := some "cat2" } }],
      edges := [{ id := "eAC", source := "A", target := "C" }] }
    "cat1" (by decide)
  exact ⟨by decide, by decide, by decide⟩

/-- C8: changing the grouping mode clears the selection, the
connected-only flag and its anchor, and empties both highlight sets,
while leaving the active category filter unchanged; the category filter
goes back to "All" only on the full reset. -/
theorem handleGroupingModeChange_clears_focus (mode : GroupingMode) (s : ViewState) :
    ((handleGroupingModeChange mode s).selectedNode = Option.none) ∧
    ((handleGroupingModeChange mode s).showingRelatedNodes = Option.none) ∧
    ((handleGroupingModeChange mode s).showOnlyConnected = false) ∧
    ((handleGroupingModeChange mode s).highlightedElements.nodeIds = ∅) ∧
    ((handleGroupingModeChange mode s).highlightedElements.edgeIds = ∅) ∧
    ((handleGroupingModeChange mode s).selectedCategory = s.selectedCategory) ∧
    ((handleGroupingModeChange mode s).groupingMode = mode) ∧
    ((handleReset s).selectedCategory = "All") :=
  ⟨rfl, rfl, rfl, rfl, rfl, rfl, rfl, rfl⟩

/-- C9 counterexample: with a non-empty search term "x", selecting node A
through `handleShowDetails` sets the selection but leaves the search term
equal to "x" — the search is not cleared. -/
theorem handleShowDetails_keeps_search_counterexample :
    ((handleShowDetails 1024 "A" detailsViewState).selectedNode = some detailsNode) ∧
    ((handleShowDetails 1024 "A" detailsViewState).searchTerm = "x") ∧
    ((handleShowDetails 1024 "A" detailsViewState).searchTerm ≠ "") :=
  ⟨by decide, by decide, by decide⟩

/-- C9 (amended): selecting a node (show details) sets the selection to
the found node and recomputes the highlight sets from its one-hop
connected elements; both the search term and the search input are left
unchanged — the search is cleared by the show-connected transition, not
by node selection. -/
theorem handleShowDetails_sets_selection (innerWidth : Nat) (nodeId : String)
    (s : ViewState) (node : UiNode)
    (h : s.nodes.find? (fun n => n.id == nodeId) = some node) :
    ((handleShowDetails innerWidth nodeId s).selectedNode = some node) ∧
    ((handleShowDetails innerWidth nodeId s).searchTerm = s.searchTerm) ∧
    ((handleShowDetails innerWidth nodeId s).searchInput = s.searchInput) ∧
    ((handleShowDetails innerWidth nodeId s).highlightedElements.nodeIds =
      (findConnectedElements nodeId s.edges).1) ∧
    ((handleShowDetails innerWidth nodeId s).highlightedElements.edgeIds =
      (findConnectedElements nodeId s.edges).2) := by
  unfold handleShowDetails
  rw [h]
  by_cases hw : innerWidth < 768 <;> simp [hw]

/-- C9 witness: the amended transition at a concrete state whose search
term is "x": node A is found, gets selected, and the search cells stay
"x". -/
theorem handleShowDetails_sets_selection_witness :
    (detailsViewState.nodes.find? (fun n => n.id == "A") = some detailsNode) ∧
    (((handleShowDetails 1024 "A" detailsViewState).selectedNode = some detailsNode) ∧
     ((handleShowDetails 1024 "A" detailsViewState).searchTerm =
       detailsViewState.searchTerm) ∧
     ((handleShowDetails 1024 "A" detailsViewState).searchInput =
       detailsViewState.searchInput) ∧
     ((handleShowDetails 1024 "A" detailsViewState).highlightedElements.nodeIds =
       (findConnectedElements "A" detailsViewState.edges).1) ∧
     ((handleShowDetails 1024 "A" detailsViewState).highlightedElements.edgeIds =
       (findConnectedElements "A" detailsViewState.edges).2)) :=
  ⟨by decide,
    handleShowDetails_sets_selection 1024 "A" detailsViewState detailsNode (by decide)⟩

/-- C10: changing the search term clears the selection, the
connected-only flag and its anchor, and empties both highlight sets in
the same transition that stores the new input — before the new term takes
effect; after the synchronising effect the new term is active and the
cleared cells stay cleared. -/
theorem handleSearchChange_clears_focus (value : String) (s : ViewState) :
    ((handleSearchChange value s).selectedNode = Option.none) ∧
    ((handleSearchChange value s).showingRelatedNodes = Option.none) ∧
    ((handleSearchChange value s).showOnlyConnected = false) ∧
    ((handleSearchChange value s).highlightedElements.nodeIds = ∅) ∧
    ((handleSearchChange value s).highlightedElements.edgeIds = ∅) ∧
    ((handleSearchChange value s).searchInput = value) ∧
    ((handleSearchChange value s).searchTerm = s.searchTerm) ∧
    ((syncSearchTerm (handleSearchChange value s)).searchTerm = value) ∧
    ((syncSearchTerm (handleSearchChange value s)).selectedNode = Option.none) :=
  ⟨rfl, rfl, rfl, rfl, rfl, rfl, rfl, rfl, rfl⟩

end TechTreeView
